import Mathlib

/-!
Verification of the approval-gating and incremental-rendering core of the
teleclaude repository, shallowly embedded in Lean 4.

Embedded sources:
- src/src/claude/permissions.py  (PermissionManager)
- src/src/utils/html.py          (find_open_tags, balance_tags, smart_truncate)
- src/src/claude/streaming.py    (safe_truncate_html, MessageStreamer)

Conventions: texts are `List Char`; Python ints that can go negative are
`Int`, indices that stay nonnegative are `Nat` (with Nat subtraction used
exactly where the source writes `max(0, a - b)` or values are provably
nonnegative, noted inline); the pending dict is an association list; sets
are lists queried by membership.  All definitions are computable so every
theorem can be checked on concrete inputs by evaluation.
-/

namespace Teleclaude

/-! ### Permission manager (src/src/claude/permissions.py) -/

/-- Models the SDK values `PermissionResultAllow` / `PermissionResultDeny(message=...)`. -/
inductive PermResult where
  | allow
  | deny (msg : String)
  deriving DecidableEq

/-- Models the dataclass `PendingPermission` of permissions.py.  The
`request_id` lives as the association-list key; the SDK `context` object and
the display-only `tool_input` mapping are dropped (no claim touches them);
`event_set` mirrors whether `event.set()` has been called. -/
structure PendingPermission where
  tool_name : String
  result : Option PermResult := none
  always_allow : Bool := false
  event_set : Bool := false
  deriving DecidableEq

/-- Models the mutable state of class `PermissionManager`: `_pending`,
`_always_allowed`, and whether `set_telegram_context` has provided a bot and
chat id (`_bot and _chat_id` truthy). -/
structure PermissionManager where
  pending : List (String × PendingPermission) := []
  always_allowed : List String := []
  bot_configured : Bool := false
  deriving DecidableEq

/-- Lookup in an association list, first match wins (Python `dict.get`). -/
def lookupKey {α : Type} : List (String × α) → String → Option α
  | [], _ => none
  | (k2, v) :: rest, k => if k2 = k then some v else lookupKey rest k

/-- Python `d[k] = v`: replace the value at an existing key in place,
otherwise append the new entry. -/
def insertKey {α : Type} : List (String × α) → String → α → List (String × α)
  | [], k, v => [(k, v)]
  | (k2, v2) :: rest, k, v =>
    if k2 = k then (k, v) :: rest else (k2, v2) :: insertKey rest k v

/-- Python `d.pop(k, None)`: drop the entry with the given key. -/
def popKey {α : Type} : List (String × α) → String → List (String × α)
  | [], _ => []
  | (k2, v) :: rest, k =>
    if k2 = k then popKey rest k else (k2, v) :: popKey rest k

/-- Models `PermissionManager.handle_permission_response(request_id, action)`:
looks up the pending entry; absent ids report failure without raising; the
actions `allow`, `always` and `deny` set the result, the always flag, and the
event, and confirm with a message naming the tool; any other action string
reports failure and leaves the state untouched. -/
def handle_permission_response (m : PermissionManager) (request_id action : String) :
    Bool × String × PermissionManager :=
  match lookupKey m.pending request_id with
  | none => (false, "Permission request not found or expired", m)
  | some pending =>
    if action = "allow" then
      let p2 : PendingPermission :=
        { pending with result := some .allow, always_allow := false, event_set := true }
      (true, "✅ Allowed: " ++ pending.tool_name,
        { m with pending := insertKey m.pending request_id p2 })
    else if action = "always" then
      let p2 : PendingPermission :=
        { pending with result := some .allow, always_allow := true, event_set := true }
      (true, "✅ Always allowed: " ++ pending.tool_name,
        { m with pending := insertKey m.pending request_id p2 })
    else if action = "deny" then
      let p2 : PendingPermission :=
        { pending with result := some (.deny "User denied permission"), event_set := true }
      (true, "❌ Denied: " ++ pending.tool_name,
        { m with pending := insertKey m.pending request_id p2 })
    else
      (false, "Unknown action: " ++ action, m)

/-- Models `PermissionManager.cancel_all()`: resolve every pending entry as a
deny and clear the pending dict, returning how many were cancelled. -/
def cancel_all (m : PermissionManager) : Nat × PermissionManager :=
  (m.pending.length, { m with pending := [] })

/-- Models how the `await` in `request_permission` ends: a UI callback routed
through `handle_permission_response` with some action string, the 300 s
`asyncio.wait_for` timeout, or `_show_permission_prompt` failing to send the
prompt (which sets a deny result and the event before the wait begins). -/
inductive Resolution where
  | uiResponse (action : String)
  | timeout
  | promptSendFails
  deriving DecidableEq

/-- Models `PermissionManager.request_permission(tool_name, tool_input, context)`
as a state transformer.  Faithful to the source control flow: the
always-allowed check returns first with no state change; then the pending
entry is stored; with no Telegram context the function returns a deny
immediately (the source does NOT pop the freshly inserted entry on this
path); otherwise the wait ends per `res`: a valid UI response sets the
result and the entry is popped (adding the tool to the always-allowed list
when the response was `always` and the result an allow), an invalid UI
response leaves the event unset so the waiter falls through to the timeout,
and the timeout and failed-prompt paths pop the entry and deny. -/
def request_permission (m : PermissionManager) (tool_name request_id : String)
    (res : Resolution) : PermResult × PermissionManager :=
  if tool_name ∈ m.always_allowed then
    (.allow, m)
  else
    let pend : PendingPermission := { tool_name := tool_name }
    let m1 : PermissionManager := { m with pending := insertKey m.pending request_id pend }
    if m.bot_configured then
      match res with
      | .promptSendFails =>
        (.deny "Failed to show prompt",
          { m1 with pending := popKey m1.pending request_id })
      | .timeout =>
        (.deny "Permission request timed out",
          { m1 with pending := popKey m1.pending request_id })
      | .uiResponse action =>
        let r := handle_permission_response m1 request_id action
        if r.1 then
          match lookupKey r.2.2.pending request_id with
          | some p =>
            let m2 : PermissionManager :=
              { r.2.2 with pending := popKey r.2.2.pending request_id }
            match p.result with
            | some pr =>
              if p.always_allow = true ∧ pr = PermResult.allow then
                (pr, { m2 with always_allowed := tool_name :: m2.always_allowed })
              else
                (pr, m2)
            | none => (.deny "Permission denied", m2)
          | none =>
            (.deny "Permission denied",
              { r.2.2 with pending := popKey r.2.2.pending request_id })
        else
          (.deny "Permission request timed out",
            { m1 with pending := popKey m1.pending request_id })
    else
      (.deny "No UI available for permission prompt", m1)

/-- Mirrors the guard in `request_permission` deciding whether
`_show_permission_prompt` is invoked: a prompt is shown exactly when the tool
is not in the always-allowed list and a Telegram context is configured. -/
def prompt_shown (m : PermissionManager) (tool_name : String) : Bool :=
  decide (tool_name ∉ m.always_allowed) && m.bot_configured

/-! ### HTML tag scanner (src/src/utils/html.py)

The regex `TAG_PATTERN = <(/?)([\w-]+)(?:\s[^>]*)?>` scanned with
`finditer` is embedded as a left-to-right scanner: at a `<` it reads an
optional `/`, then a maximal nonempty run of word characters, then either an
immediate `>`, or one whitespace character followed by everything up to the
next `>` (the greedy `[^>]*` cannot cross a `>`, and on its failure no
backtracking alternative exists because word characters are neither `>` nor
whitespace); if the attempt fails the scan moves on one character; after a
match it resumes past the match.  Python `\w` is modelled as ASCII
alphanumerics plus underscore (the supported tag vocabulary is ASCII, as are
all inputs in the theorems below). -/

/-- Word characters of the regex character class `[\w-]`. -/
def isWordDash (c : Char) : Bool := c.isAlphanum || c = '_' || c = '-'

/-- Whitespace characters matched by the regex class `\s`. -/
def isPySpace (c : Char) : Bool :=
  c = ' ' || c = '\t' || c = '\n' || c = '\x0b' || c = '\x0c' || c = '\r'

/-- Consume characters up to and including the next `>` (the `[^>]*>` tail
of the tag regex); fails when no `>` remains. -/
def skipToGt : List Char → Option (List Char)
  | [] => none
  | c :: cs => if c = '>' then some cs else skipToGt cs

/-- After the tag-name run, the regex needs either an immediate `>` or one
whitespace character and then `[^>]*>`. -/
def afterName : List Char → Option (List Char)
  | [] => none
  | c :: cs => if c = '>' then some cs else if isPySpace c then skipToGt cs else none

/-- Parse the `([\w-]+)(?:\s[^>]*)?>` part of the tag regex, returning the
lowercased tag name (`match.group(2).lower()`) and the remainder after the
closing `>`. -/
def parseName (l : List Char) : Option (List Char × List Char) :=
  let w := l.takeWhile isWordDash
  if w.isEmpty then none
  else
    match afterName (l.dropWhile isWordDash) with
    | some rem => some (w.map Char.toLower, rem)
    | none => none

/-- Attempt a regex match at the current position: succeeds only at a `<`,
reading the optional `/` of group 1 and then the name and tail. -/
def tryTag (l : List Char) : Option ((Bool × List Char) × List Char) :=
  match l with
  | [] => none
  | c :: rest =>
    if c = '<' then
      match rest with
      | [] => none
      | c2 :: rest2 =>
        if c2 = '/' then (parseName rest2).map (fun p => ((true, p.1), p.2))
        else (parseName rest).map (fun p => ((false, p.1), p.2))
    else none

/-- Fuel-driven loop of the `finditer` scan (structural recursion on the
fuel so the kernel can evaluate it): attempt a match at every position,
resume after each successful match, advance one character on failure.  One
unit of fuel is spent per position and every successful match consumes at
least one character, so `length text` fuel always suffices. -/
def scanTagsFuel : Nat → List Char → List (Bool × List Char)
  | 0, _ => []
  | _, [] => []
  | fuel + 1, c :: cs =>
    match tryTag (c :: cs) with
    | some tr => tr.1 :: scanTagsFuel fuel tr.2
    | none => scanTagsFuel fuel cs

/-- Models `TAG_PATTERN.finditer(text)`. -/
def scanTags (text : List Char) : List (Bool × List Char) :=
  scanTagsFuel text.length text

/-- The module constant `SUPPORTED_TAGS` of html.py. -/
def SUPPORTED_TAGS : List (List Char) :=
  ["b", "strong", "i", "em", "u", "ins", "s", "strike", "del",
   "code", "pre", "a", "tg-spoiler", "blockquote"].map String.toList

/-- Python `list.remove`: drop the first occurrence of a value. -/
def removeFirstTag : List (List Char) → List Char → List (List Char)
  | [], _ => []
  | x :: xs, name => if x = name then xs else x :: removeFirstTag xs name

/-- The body of the `find_open_tags` scan loop: unsupported names are
skipped; an opening tag is pushed; a closing tag pops a matching top of
stack, otherwise removes the first matching occurrence anywhere in the
stack, otherwise is a no-op. -/
def applyTag (stack : List (List Char)) (t : Bool × List Char) : List (List Char) :=
  if t.2 ∉ SUPPORTED_TAGS then stack
  else if t.1 then
    if stack.getLast? = some t.2 then stack.dropLast
    else if t.2 ∈ stack then removeFirstTag stack t.2
    else stack
  else stack ++ [t.2]

/-- Models `find_open_tags(text)`: the tag names opened but not closed, in
opening order. -/
def find_open_tags (text : List Char) : List (List Char) :=
  (scanTags text).foldl applyTag []

/-- Models `balance_tags(text)`: append closing tags for every entry left on
the open-tag stack, last opened first closed. -/
def balance_tags (text : List Char) : List Char :=
  let openTags := find_open_tags text
  if openTags = [] then text
  else text ++ (openTags.reverse.map (fun t => '<' :: '/' :: (t ++ ['>']))).flatten

/-! ### Streaming truncation (src/src/claude/streaming.py) -/

/-- The `available` budget computed by `safe_truncate_html`: reserve the
prefix length and a 60-character tag buffer; if fewer than 50 characters
remain, fall back to reserving only 20.  Python int arithmetic, so `Int`. -/
def sth_available (max_length pfx_len : Nat) : Int :=
  if (max_length : Int) - (pfx_len : Int) - 60 < 50 then
    (max_length : Int) - (pfx_len : Int) - 20
  else (max_length : Int) - (pfx_len : Int) - 60

/-- The cut position `truncate_point = max(0, len(text) - available)`. -/
def sth_truncate_point (text_len max_length pfx_len : Nat) : Nat :=
  (max 0 ((text_len : Int) - sth_available max_length pfx_len)).toNat

/-- Models `safe_truncate_html(text, max_length, prefix)`: under-budget text
is returned unchanged; otherwise take the suffix after `truncate_point`,
skip past a leading partial tag when the first `>` of the suffix comes
before its first `<` (Python: `first_lt != -1 and (first_gt == -1 or
first_gt < first_lt)`, then `truncated = truncated[first_gt+1:]` when
`first_gt != -1`), re-open every tag reported open in the discarded prefix,
balance, and prepend the prefix. -/
def safe_truncate_html (text : List Char) (max_length : Nat)
    (pfx : List Char := []) : List Char :=
  if text.length ≤ max_length then text
  else
    let truncate_point := sth_truncate_point text.length max_length pfx.length
    let truncated := text.drop truncate_point
    let first_gt := truncated.findIdx? (fun c => c = '>')
    let first_lt := truncated.findIdx? (fun c => c = '<')
    let truncated2 :=
      match first_lt, first_gt with
      | some lt, some gt => if gt < lt then truncated.drop (gt + 1) else truncated
      | _, _ => truncated
    let openAtTrunc :=
      if truncate_point > 0 then find_open_tags (text.take truncate_point) else []
    let truncated3 :=
      if openAtTrunc = [] then truncated2
      else (openAtTrunc.map (fun t => '<' :: (t ++ ['>']))).flatten ++ truncated2
    pfx ++ balance_tags truncated3

/-- Models the fields of `MessageStreamer` that `_get_display_text` reads
(the Telegram message object and lock are external). -/
structure MessageStreamer where
  throttle_ms : Nat := 1000
  chunk_size : Nat := 3800
  parse_mode : Option String := some "HTML"
  current_text : List Char := []
  fallback_to_plain : Bool := false
  deriving DecidableEq

/-- Models `MessageStreamer._get_display_text`.  In HTML mode without the
plain-text fallback: balance under-budget text, otherwise call
`safe_truncate_html` with the `[...]\n` indicator prefix.  Other modes keep
the text, or keep the last `chunk_size - 10` characters behind the
indicator; Python slices with a negative start, `text[-(chunk_size-10):]`,
which for `chunk_size ≤ 10` means a nonnegative start of `10 - chunk_size`. -/
def get_display_text (st : MessageStreamer) : List Char :=
  let text := st.current_text
  if st.parse_mode = some "HTML" ∧ st.fallback_to_plain = false then
    if text.length ≤ st.chunk_size then balance_tags text
    else safe_truncate_html text st.chunk_size "[...]\n".toList
  else
    if text.length ≤ st.chunk_size then text
    else
      let truncated :=
        if st.chunk_size ≤ 10 then text.drop (10 - st.chunk_size)
        else text.drop (text.length - (st.chunk_size - 10))
      "[...]\n".toList ++ truncated

/-! ### Contextual truncation (smart_truncate in src/src/utils/html.py) -/

/-- Insert into a sorted duplicate-free list of naturals. -/
def insertSortedUniq (n : Nat) : List Nat → List Nat
  | [] => [n]
  | x :: xs =>
    if n < x then n :: x :: xs else if n = x then x :: xs else x :: insertSortedUniq n xs

/-- Python `sorted(set(l))`. -/
def sortedUniq (l : List Nat) : List Nat := l.foldr insertSortedUniq []

/-- Python `l[::2]`: every other element, starting with the first. -/
def everyOther : List Nat → List Nat
  | [] => []
  | [x] => [x]
  | x :: _ :: rest => x :: everyOther rest

/-- The region build of `smart_truncate`: around each index the inclusive
window `(max(0, idx - ctx), min(len(lines), idx + ctx + 1))` (Nat
subtraction is exactly the `max(0, ...)` of the source). -/
def buildRegions (nLines ctx : Nat) (ints : List Nat) : List (Nat × Nat) :=
  ints.map (fun idx => (idx - ctx, min nLines (idx + ctx + 1)))

/-- One step of the merge loop: extend the previous region when the new one
starts within one line of its end, else start a new region.  The accumulator
is kept reversed (head = most recent region). -/
def mergeStep (acc : List (Nat × Nat)) (r : Nat × Nat) : List (Nat × Nat) :=
  match acc with
  | [] => [r]
  | (s0, e0) :: rest => if r.1 ≤ e0 + 1 then (s0, max e0 r.2) :: rest else r :: (s0, e0) :: rest

/-- The merge loop of `smart_truncate` over the built regions. -/
def mergeRegions (rs : List (Nat × Nat)) : List (Nat × Nat) :=
  (rs.foldl mergeStep []).reverse

/-- Content lines of the merged regions. -/
def sumContent (merged : List (Nat × Nat)) : Nat :=
  (merged.map (fun r => r.2 - r.1)).sum

/-- Skip-indicator count: one per gap before a region, plus a trailing one
when the last region stops short of the end. -/
def countSkipIndicators (nLines : Nat) (merged : List (Nat × Nat)) : Nat :=
  let f := merged.foldl
    (fun (acc : Nat × Nat) r => (acc.1 + (if r.1 > acc.2 then 1 else 0), r.2)) (0, 0)
  f.1 + (if f.2 < nLines then 1 else 0)

/-- Total output size of a candidate selection. -/
def totalOutLines (nLines : Nat) (merged : List (Nat × Nat)) : Nat :=
  sumContent merged + countSkipIndicators nLines merged

/-- The `while current_context >= 0` fitting loop of `smart_truncate`: keep
the candidate when it fits; otherwise reduce the context by one; at context
zero, halve the interesting list ONCE (`interesting[::2]`), rebuild, and
break out of the loop without rechecking the budget (faithful to the
source, whose `break` follows the single halving unconditionally). -/
def smartLoop (nLines maxLines : Nat) (ints : List Nat) (ctx : Nat) : List (Nat × Nat) :=
  let merged := mergeRegions (buildRegions nLines ctx (sortedUniq ints))
  if totalOutLines nLines merged ≤ maxLines then merged
  else
    match ctx with
    | c + 1 => smartLoop nLines maxLines ints c
    | 0 =>
      let ints2 := sortedUniq ints
      if 1 < ints2.length then
        mergeRegions (buildRegions nLines 0 (everyOther ints2))
      else merged

/-- The mid-stream skip indicator line `├─ ... {n} lines skipped ...`. -/
def skipLineMid (n : Nat) : List Char :=
  "├─ ... ".toList ++ (Nat.repr n).toList ++ " lines skipped ...".toList

/-- The trailing skip indicator line `└─ ... {n} lines skipped ...`. -/
def skipLineEnd (n : Nat) : List Char :=
  "└─ ... ".toList ++ (Nat.repr n).toList ++ " lines skipped ...".toList

/-- The output build of `smart_truncate`: each region preceded by a skip
indicator when a gap precedes it, plus a trailing indicator when the last
region stops short of the end. -/
def renderMerged (lines : List (List Char)) (merged : List (Nat × Nat)) :
    List (List Char) :=
  let f := merged.foldl
    (fun (acc : List (List Char) × Nat) r =>
      let withSkip := if r.1 > acc.2 then acc.1 ++ [skipLineMid (r.1 - acc.2)] else acc.1
      (withSkip ++ (lines.drop r.1).take (r.2 - r.1), r.2))
    ([], 0)
  if f.2 < lines.length then f.1 ++ [skipLineEnd (lines.length - f.2)] else f.1

/-- Python `"\n".join(parts)`. -/
def joinLines (parts : List (List Char)) : List Char :=
  List.intercalate ['\n'] parts

/-- Models `smart_truncate(lines, max_lines, interesting, context)`.  Lines
under budget are joined unchanged; with no interesting indices a 60% head
and a tail split around one skip line (`tail_lines` is Python int and can
only be positive when used, guarded by `if tail_lines > 0`); otherwise the
fitting loop selects regions and the output is rendered with skip
indicators. -/
def smart_truncate (lines : List (List Char)) (max_lines : Nat)
    (interesting : List Nat) (context : Nat := 3) : List Char :=
  if lines.length ≤ max_lines then joinLines lines
  else if interesting = [] then
    let head_lines := max_lines * 3 / 5
    let tail_lines : Int := (max_lines : Int) - (head_lines : Int) - 1
    let head := lines.take head_lines
    let tail := if 0 < tail_lines then lines.drop (lines.length - tail_lines.toNat) else []
    let skipped : Int := (lines.length : Int) - (head_lines : Int) - tail_lines
    joinLines head
      ++ ("\n├─ ... ".toList ++ (toString skipped).toList ++ " lines skipped ...\n".toList)
      ++ joinLines tail
  else
    joinLines (renderMerged lines (smartLoop lines.length max_lines interesting context))

/-- Line count of a rendered text, `len(result.split("\n"))`. -/
def countLines (text : List Char) : Nat :=
  (text.filter (fun c => c = '\n')).length + 1

/-! ### Flush scheduling (MessageStreamer throttling, streaming.py)

`append_text` / `_maybe_flush` / `_delayed_flush` / `_do_flush` are modelled
as a transition system.  All handler bodies run under the streamer lock, so
each lock-protected critical section is one atomic transition.  The state
keeps `_last_edit_time` (ms), `_pending_flush`, and the fire times of the
`asyncio.create_task(self._delayed_flush())` tasks currently in flight
(FIFO: all sleeps are equally long).  A `FlushOutcome` says how the inner
`edit_text` attempt of `_do_flush` ends, determining which flags change. -/

/-- How one `_do_flush` call ends. -/
inductive FlushOutcome where
  /-- The edit (or its plain-text fallback retry) succeeded: the edit time
  is recorded and the pending-flush flag cleared. -/
  | success
  /-- BadRequest `not modified`: the pending-flush flag is cleared but the
  edit time is not recorded. -/
  | notModified
  /-- TimedOut, or the fallback retry also failed: flags untouched. -/
  | failed
  /-- `current_text` empty: `_do_flush` returns immediately, flags untouched. -/
  | empty
  deriving DecidableEq

/-- Scheduling state of one `MessageStreamer`. -/
structure FlushState where
  lastEdit : Nat := 0
  pendingFlush : Bool := false
  tasks : List Nat := []
  deriving DecidableEq

/-- Effect of `_do_flush` on the scheduling state at time `now`. -/
def do_flush (s : FlushState) (now : Nat) (o : FlushOutcome) : FlushState :=
  match o with
  | .success => { s with lastEdit := now, pendingFlush := false }
  | .notModified => { s with pendingFlush := false }
  | .failed => s
  | .empty => s

/-- An observable event: an `append_text` call at a time (running
`_maybe_flush`), or the firing of the oldest in-flight delayed-flush task. -/
inductive StreamEvent where
  | append (now : Nat) (o : FlushOutcome)
  | fire (o : FlushOutcome)
  deriving DecidableEq

/-- One transition: `_maybe_flush` flushes immediately when the throttle
interval has elapsed, otherwise schedules one delayed task unless the
pending-flush flag is already set; a firing task runs `_do_flush` at its
fire time only when the flag is still set. -/
def streamStep (throttle : Nat) (s : FlushState) : StreamEvent → FlushState
  | .append now o =>
    if throttle ≤ now - s.lastEdit then do_flush s now o
    else if s.pendingFlush then s
    else { s with pendingFlush := true, tasks := s.tasks ++ [now + throttle] }
  | .fire o =>
    match s.tasks with
    | [] => s
    | t :: rest =>
      if s.pendingFlush then do_flush { s with tasks := rest } t o
      else { s with tasks := rest }

/-- Run a trace of events. -/
def streamRun (throttle : Nat) (s : FlushState) : List StreamEvent → FlushState
  | [] => s
  | e :: es => streamRun throttle (streamStep throttle s e) es

/-- The single-timer invariant: at most one delayed-flush task in flight,
and a task in flight only while the pending-flush flag is set. -/
def flushInv (s : FlushState) : Bool :=
  decide (s.tasks.length ≤ 1) && (s.tasks.isEmpty || s.pendingFlush)

/-- Side condition of the amended claim C7: no immediate (throttle-elapsed)
flush happens while a delayed task is still in flight. -/
def eventOk (throttle : Nat) (s : FlushState) : StreamEvent → Bool
  | .append now _ => !(decide (throttle ≤ now - s.lastEdit)) || s.tasks.isEmpty
  | .fire _ => true

/-- The side condition held along a whole trace. -/
def runOk (throttle : Nat) (s : FlushState) : List StreamEvent → Bool
  | [] => true
  | e :: es => eventOk throttle s e && runOk throttle (streamStep throttle s e) es

/-! ### Safe truncate point (claim C3)

Modelled from the spec: `find_safe_truncate_point` is imported and tested by
tests/test_streaming.py but absent from src/src/claude/streaming.py, so it
is reconstructed from the spec of `safeTruncatePoint` (spec.md section 4.1):
a target inside a character entity `&...;` or inside a tag `<...>` moves
back to just before the offending `&` or `<` (repeatedly, so the guarantee
also holds for nested spans such as an entity inside a tag); otherwise the
cut prefers the position just after the nearest preceding newline, failing
that just after the nearest preceding space, failing that the target; the
returned index never splits an entity or tag and never exceeds the target. -/

/-- Characters allowed in the body of a `&...;` character entity. -/
def isEntityBodyChar (c : Char) : Bool := c.isAlphanum || c = '#'

/-- Walk backward from a position over entity-body characters looking for
the opening `&`. -/
def ampBackFrom (text : List Char) : Nat → Option Nat
  | 0 =>
    match text.get? 0 with
    | some c => if c = '&' then some 0 else none
    | none => none
  | k + 1 =>
    match text.get? (k + 1) with
    | some c =>
      if c = '&' then some (k + 1)
      else if isEntityBodyChar c then ampBackFrom text k
      else none
    | none => none

/-- Do the characters from the cut onward continue an entity body up to a
closing `;`? -/
def semiClose : List Char → Bool
  | [] => false
  | c :: cs => if c = ';' then true else if isEntityBodyChar c then semiClose cs else false

/-- When the cut index is strictly inside a `&...;` span, the index of its
`&`; otherwise `none`. -/
def insideEntity (text : List Char) (i : Nat) : Option Nat :=
  match i with
  | 0 => none
  | j + 1 => if semiClose (text.drop (j + 1)) then ampBackFrom text j else none

/-- Walk backward from a position looking for the opening `<` of a tag,
blocked by any intervening `>`. -/
def ltBackFrom (text : List Char) : Nat → Option Nat
  | 0 =>
    match text.get? 0 with
    | some c => if c = '<' then some 0 else none
    | none => none
  | k + 1 =>
    match text.get? (k + 1) with
    | some c =>
      if c = '<' then some (k + 1)
      else if c = '>' then none
      else ltBackFrom text k
    | none => none

/-- Do the characters from the cut onward reach a closing `>` before any
new `<`? -/
def gtClose : List Char → Bool
  | [] => false
  | c :: cs => if c = '>' then true else if c = '<' then false else gtClose cs

/-- When the cut index is strictly inside a `<...>` span, the index of its
`<`; otherwise `none`. -/
def insideTag (text : List Char) (i : Nat) : Option Nat :=
  match i with
  | 0 => none
  | j + 1 => if gtClose (text.drop (j + 1)) then ltBackFrom text j else none

/-- Repeatedly move the cut back to just before the `&` or `<` of any span
it falls strictly inside of.  Every step strictly decreases the index, so
`i` units of fuel always suffice. -/
def adjustBackFuel (text : List Char) : Nat → Nat → Nat
  | 0, i => i
  | fuel + 1, i =>
    match insideEntity text i with
    | some j => adjustBackFuel text fuel j
    | none =>
      match insideTag text i with
      | some j => adjustBackFuel text fuel j
      | none => i

/-- The span-escaping adjustment of the safe truncate point. -/
def adjustBack (text : List Char) (i : Nat) : Nat := adjustBackFuel text i i

/-- The largest position strictly before a bound holding a given character. -/
def lastIdxBefore (text : List Char) (c : Char) : Nat → Option Nat
  | 0 => none
  | p + 1 =>
    match text.get? p with
    | some cc => if cc = c then some p else lastIdxBefore text c p
    | none => lastIdxBefore text c p

/-- Modelled from the spec: `find_safe_truncate_point(text, target)` (the
function tests/test_streaming.py imports from src.claude.streaming, missing
from the shipped module).  Clamp the target into the text, escape any
entity or tag span; when no escape was needed, snap to just after the
nearest preceding newline, else just after the nearest preceding space
(re-escaping in case that position sits inside a span), else stay. -/
def find_safe_truncate_point (text : List Char) (target : Nat) : Nat :=
  let t := min target text.length
  let a := adjustBack text t
  if a < t then a
  else
    match lastIdxBefore text '\n' t with
    | some p => adjustBack text (p + 1)
    | none =>
      match lastIdxBefore text ' ' t with
      | some q => adjustBack text (q + 1)
      | none => t

/-! ## Theorems -/

/-! ### Association-list helper lemmas -/

theorem lookupKey_popKey_self {α : Type} (l : List (String × α)) (k : String) :
    lookupKey (popKey l k) k = none := by
  induction l with
  | nil => rfl
  | cons hd tl ih =>
    obtain ⟨k2, v⟩ := hd
    by_cases h : k2 = k
    · simp [popKey, h, ih]
    · simp [popKey, lookupKey, h, ih]

theorem lookupKey_insertKey_self {α : Type} (l : List (String × α)) (k : String) (v : α) :
    lookupKey (insertKey l k v) k = some v := by
  induction l with
  | nil => simp [insertKey, lookupKey]
  | cons hd tl ih =>
    obtain ⟨k2, v2⟩ := hd
    by_cases h : k2 = k
    · simp [insertKey, h, lookupKey]
    · simp [insertKey, h, lookupKey, ih]

/-! ### Claim C1 -/

/-- Claim C1, counterexample.  The claim says every resolution path of a
`request_permission` call that created a `PendingPermission` removes the
entry from the pending map, including the unconfigured-UI immediate deny.
At the concrete input below the tool is not always-allowed (so the entry is
created), no Telegram context is configured, the call resolves as the
immediate deny, and the entry is still in the pending map when it returns:
the source returns from the no-UI branch without popping the entry. -/
theorem request_permission_unconfigured_leaves_pending_entry :
    "Bash" ∉ ({} : PermissionManager).always_allowed
    ∧ (request_permission {} "Bash" "r1" .timeout).1
        = .deny "No UI available for permission prompt"
    ∧ lookupKey (request_permission {} "Bash" "r1" .timeout).2.pending "r1" ≠ none := by
  decide

/-- Claim C1, amended.  When a Telegram context is configured, every way the
wait can end (valid or invalid UI response, timeout, failure to send the
prompt) pops the pending entry before `request_permission` returns; only the
unconfigured-UI immediate deny leaves the entry behind. -/
theorem request_permission_removes_pending_when_configured
    (m : PermissionManager) (tool_name request_id : String) (res : Resolution)
    (hbot : m.bot_configured = true) (hal : tool_name ∉ m.always_allowed) :
    lookupKey ((request_permission m tool_name request_id res).2).pending request_id
      = none := by
  unfold request_permission
  rw [if_neg hal]
  simp only [hbot, if_true]
  cases res with
  | promptSendFails => simp [lookupKey_popKey_self]
  | timeout => simp [lookupKey_popKey_self]
  | uiResponse action =>
    dsimp only
    split
    · split
      · split
        · split <;> simp [lookupKey_popKey_self]
        · simp [lookupKey_popKey_self]
      · simp [lookupKey_popKey_self]
    · simp [lookupKey_popKey_self]

/-- Claim C1, witness for the amended theorem at a concrete configured state. -/
theorem request_permission_removes_pending_when_configured_witness :
    lookupKey ((request_permission ⟨[], [], true⟩ "Bash" "r1" .timeout).2).pending "r1"
      = none :=
  request_permission_removes_pending_when_configured ⟨[], [], true⟩ "Bash" "r1"
    .timeout (by decide) (by decide)

/-! ### Claim C5 -/

/-- Claim C5.  A tool already in the always-allowed list is auto-approved
with no state change and no prompt; a request resolved with the `always`
action returns allow and adds the tool to the always-allowed list, so a
later request for that tool is auto-approved with no prompt while any tool
still outside the list would be prompted. -/
theorem request_permission_always_allow
    (m : PermissionManager) (tool_name request_id : String) (res : Resolution) :
    (tool_name ∈ m.always_allowed →
      request_permission m tool_name request_id res = (.allow, m)
      ∧ prompt_shown m tool_name = false)
    ∧ (m.bot_configured = true → tool_name ∉ m.always_allowed →
      (request_permission m tool_name request_id (.uiResponse "always")).1 = .allow
      ∧ tool_name
          ∈ (request_permission m tool_name request_id (.uiResponse "always")).2.always_allowed
      ∧ prompt_shown m tool_name = true
      ∧ (∀ id2 res2,
          request_permission
              (request_permission m tool_name request_id (.uiResponse "always")).2
              tool_name id2 res2
            = (.allow, (request_permission m tool_name request_id (.uiResponse "always")).2))
      ∧ (∀ tool2,
          tool2 ∉ (request_permission m tool_name request_id (.uiResponse "always")).2.always_allowed →
          prompt_shown (request_permission m tool_name request_id (.uiResponse "always")).2 tool2
            = true)) := by
  constructor
  · intro hmem
    constructor
    · simp [request_permission, hmem]
    · simp [prompt_shown, hmem]
  · intro hbot hal
    have hrun :
        request_permission m tool_name request_id (.uiResponse "always")
          = (.allow,
              { m with
                  pending :=
                    popKey
                      (insertKey (insertKey m.pending request_id { tool_name := tool_name })
                        request_id
                        { tool_name := tool_name, result := some .allow,
                          always_allow := true, event_set := true })
                      request_id,
                  always_allowed := tool_name :: m.always_allowed }) := by
      unfold request_permission
      rw [if_neg hal]
      simp only [hbot, if_true]
      simp [handle_permission_response, lookupKey_insertKey_self]
    refine ⟨by rw [hrun], by rw [hrun]; exact List.mem_cons_self _ _, ?_, ?_, ?_⟩
    · simp [prompt_shown, hal, hbot]
    · intro id2 res2
      rw [hrun]
      simp [request_permission]
    · intro tool2 h2
      rw [hrun] at h2 ⊢
      simp [prompt_shown, h2, hbot]

/-- Claim C5, witness at a concrete state: resolving `always` for Bash adds
Bash to the always-allowed list and returns allow. -/
theorem request_permission_always_allow_witness :
    (request_permission ⟨[], [], true⟩ "Bash" "r1" (.uiResponse "always")).1 = .allow
    ∧ "Bash" ∈ (request_permission ⟨[], [], true⟩ "Bash" "r1" (.uiResponse "always")).2.always_allowed
    ∧ prompt_shown ⟨[], [], true⟩ "Bash" = true
    ∧ (∀ id2 res2,
        request_permission
            (request_permission ⟨[], [], true⟩ "Bash" "r1" (.uiResponse "always")).2
            "Bash" id2 res2
          = (.allow, (request_permission ⟨[], [], true⟩ "Bash" "r1" (.uiResponse "always")).2))
    ∧ (∀ tool2,
        tool2 ∉ (request_permission ⟨[], [], true⟩ "Bash" "r1" (.uiResponse "always")).2.always_allowed →
        prompt_shown (request_permission ⟨[], [], true⟩ "Bash" "r1" (.uiResponse "always")).2 tool2
          = true) :=
  (request_permission_always_allow ⟨[], [], true⟩ "Bash" "r1" .timeout).2
    (by decide) (by decide)

/-! ### Claim C8 -/

/-- Claim C8.  Resolving an id absent from the pending map returns the
failure pair with the not-found message and an unchanged state, for every
action string; resolving a present id with action allow, always or deny
returns success and a confirmation message ending in the tool name. -/
theorem handle_response_unknown_id_fails_known_succeed
    (m : PermissionManager) (request_id action : String) :
    (lookupKey m.pending request_id = none →
      handle_permission_response m request_id action
        = (false, "Permission request not found or expired", m))
    ∧ (∀ p, lookupKey m.pending request_id = some p →
        action = "allow" ∨ action = "always" ∨ action = "deny" →
        (handle_permission_response m request_id action).1 = true
        ∧ ∃ pre, (handle_permission_response m request_id action).2.1
            = pre ++ p.tool_name) := by
  constructor
  · intro h
    simp [handle_permission_response, h]
  · intro p hp hact
    rcases hact with h | h | h <;> subst h <;>
      simp [handle_permission_response, hp] <;>
(first
      | exact ⟨"✅ Allowed: ", rfl⟩
      | exact ⟨"✅ Always allowed: ", rfl⟩
      | exact ⟨"❌ Denied: ", rfl⟩)

/-- Claim C8, witness: an unknown id fails with the not-found message, and a
present id resolved with allow succeeds with a message naming the tool. -/
theorem handle_response_unknown_id_fails_known_succeed_witness :
    (handle_permission_response ⟨[], [], true⟩ "r0" "allow"
      = (false, "Permission request not found or expired", ⟨[], [], true⟩))
    ∧ ((handle_permission_response
          ⟨[("r1", { tool_name := "Bash" })], [], true⟩ "r1" "allow").1 = true
      ∧ ∃ pre, (handle_permission_response
          ⟨[("r1", { tool_name := "Bash" })], [], true⟩ "r1" "allow").2.1
            = pre ++ "Bash") :=
  ⟨(handle_response_unknown_id_fails_known_succeed ⟨[], [], true⟩ "r0" "allow").1
      (by decide),
    (handle_response_unknown_id_fails_known_succeed
        ⟨[("r1", { tool_name := "Bash" })], [], true⟩ "r1" "allow").2
      { tool_name := "Bash" } (by decide) (Or.inl rfl)⟩

/-! ### Claim C10 -/

/-- Claim C10.  For a pending id and an action outside allow/always/deny the
handler returns the failure pair with the unknown-action message and leaves
the state untouched, so the entry is still pending with its event unset and
its result unset (the waiter keeps waiting until a valid response, the
timeout, or a cancel-all). -/
theorem handle_response_unknown_action_keeps_pending
    (m : PermissionManager) (request_id action : String) (p : PendingPermission)
    (hp : lookupKey m.pending request_id = some p)
    (h1 : action ≠ "allow") (h2 : action ≠ "always") (h3 : action ≠ "deny") :
    handle_permission_response m request_id action
      = (false, "Unknown action: " ++ action, m)
    ∧ lookupKey ((handle_permission_response m request_id action).2.2).pending request_id
      = some p := by
  have h : handle_permission_response m request_id action
      = (false, "Unknown action: " ++ action, m) := by
    simp [handle_permission_response, hp, h1, h2, h3]
  exact ⟨h, by rw [h]; exact hp⟩

/-- Claim C10, witness: an unrecognised action string on a pending id fails
and the entry stays pending. -/
theorem handle_response_unknown_action_keeps_pending_witness :
    handle_permission_response
        ⟨[("r1", { tool_name := "Bash" })], [], true⟩ "r1" "perm_evil"
      = (false, "Unknown action: perm_evil", ⟨[("r1", { tool_name := "Bash" })], [], true⟩)
    ∧ lookupKey ((handle_permission_response
        ⟨[("r1", { tool_name := "Bash" })], [], true⟩ "r1" "perm_evil").2.2).pending "r1"
      = some { tool_name := "Bash" } :=
  handle_response_unknown_action_keeps_pending
    ⟨[("r1", { tool_name := "Bash" })], [], true⟩ "r1" "perm_evil"
    { tool_name := "Bash" } (by decide) (by decide) (by decide) (by decide)

/-! ### Scanner validation against the Python regex semantics -/

example : find_open_tags "<b>hello".toList = ["b".toList] := by decide
example : find_open_tags "<b>hello</b>".toList = [] := by decide
example : find_open_tags "<i><b ".toList = ["i".toList] := by decide
example : balance_tags "<i><b ".toList = "<i><b </i>".toList := by decide
example : find_open_tags "<i><b </i>".toList = ["i".toList, "b".toList] := by decide
example : find_open_tags "<a <b>x".toList = ["a".toList] := by decide
example : find_open_tags "<B>x</b>".toList = [] := by decide
example : find_open_tags "<xx>x<b>".toList = ["b".toList] := by decide
example : find_open_tags "<i><b>a</i>c</b>".toList = [] := by decide
example : scanTags "<br/>".toList = [] := by decide
example : scanTags "< b>".toList = [] := by decide
example : scanTags "</>".toList = [] := by decide
example : scanTags "<a\tb>".toList = [(false, "a".toList)] := by decide
example : scanTags "<b \nhello>world".toList = [(false, "b".toList)] := by decide

/-! ### Claim C9 -/

theorem balance_tags_of_no_open {x : List Char} (h : find_open_tags x = []) :
    balance_tags x = x := by
  simp [balance_tags, h]

/-- Claim C9, counterexample.  The claim says `balance` is idempotent and
its output has zero open tags.  At `x = "<i><b "` the scan leaves `i` open
(the dangling `<b ` has no closing `>` so it is no tag), `balance` appends
`</i>`, and in the result the regex now matches `<b </i>` as an opening
`b` tag: the balanced text reports open tags and balancing it again
changes it. -/
theorem balance_tags_not_idempotent :
    find_open_tags (balance_tags "<i><b ".toList) ≠ []
    ∧ balance_tags (balance_tags "<i><b ".toList) ≠ balance_tags "<i><b ".toList := by
  decide

/-- Claim C9, amended.  Balancing an already-balanced text returns it
unchanged, and `balance` is idempotent at every text whose balanced form
reports zero open tags; unconditional idempotence and zero-open-after-balance
fail because appended closers can merge with a trailing partial tag. -/
theorem balance_tags_conditionally_idempotent (x : List Char) :
    (find_open_tags x = [] → balance_tags x = x)
    ∧ (find_open_tags (balance_tags x) = [] →
        balance_tags (balance_tags x) = balance_tags x) :=
  ⟨fun h => balance_tags_of_no_open h, fun h => balance_tags_of_no_open h⟩

/-- Claim C9, witness: an already-balanced text is returned unchanged, and
idempotence holds at a text whose balanced form is clean. -/
theorem balance_tags_conditionally_idempotent_witness :
    balance_tags "<b>x</b>".toList = "<b>x</b>".toList
    ∧ balance_tags (balance_tags "<b>x".toList) = balance_tags "<b>x".toList :=
  ⟨(balance_tags_conditionally_idempotent "<b>x</b>".toList).1 (by decide),
   (balance_tags_conditionally_idempotent "<b>x".toList).2 (by decide)⟩

/-! ### Claim C6 -/

/-- Claim C6.  In HTML mode with no plain-text fallback, for every
accumulated text within the configured maximum size the display view is
exactly `balance_tags` of the text. -/
theorem get_display_text_eq_balance_under_budget
    (st : MessageStreamer) (hmode : st.parse_mode = some "HTML")
    (hfb : st.fallback_to_plain = false)
    (hlen : st.current_text.length ≤ st.chunk_size) :
    get_display_text st = balance_tags st.current_text := by
  simp [get_display_text, hmode, hfb, hlen]

/-- Claim C6, witness at a concrete under-budget streamer state. -/
theorem get_display_text_eq_balance_under_budget_witness :
    get_display_text { current_text := "<b>x".toList }
      = balance_tags "<b>x".toList :=
  get_display_text_eq_balance_under_budget { current_text := "<b>x".toList }
    rfl rfl (by decide)

/-! ### Claim C4 -/

theorem scanTagsFuel_eq_nil_of_no_lt :
    ∀ (fuel : Nat) (l : List Char), (∀ c ∈ l, c ≠ '<') → scanTagsFuel fuel l = [] := by
  intro fuel
  induction fuel with
  | zero => intro l _; cases l <;> rfl
  | succ f ih =>
    intro l h
    match l with
    | [] => rfl
    | c :: cs =>
      have hc : c ≠ '<' := h c (List.mem_cons_self c cs)
      have ht : tryTag (c :: cs) = none := by
        unfold tryTag
        simp [hc]
      simp only [scanTagsFuel, ht]
      exact ih cs (fun d hd => h d (List.mem_cons_of_mem c hd))

theorem find_open_tags_eq_nil_of_no_lt {l : List Char} (h : ∀ c ∈ l, c ≠ '<') :
    find_open_tags l = [] := by
  unfold find_open_tags scanTags
  rw [scanTagsFuel_eq_nil_of_no_lt l.length l h]
  rfl

theorem sth_available_bounds (max_length pfx_len : Nat)
    (h : pfx_len + 20 ≤ max_length) :
    0 ≤ sth_available max_length pfx_len
    ∧ sth_available max_length pfx_len ≤ (max_length : Int) - pfx_len - 20 := by
  unfold sth_available
  split <;> omega

/-- Under-budget behaviour of `safe_truncate_html` on markup-free text: the
whole adjustment pipeline is the identity, so the result is the indicator
prefix plus a suffix that fits the reserved budget. -/
theorem safe_truncate_html_no_tags (text pfx : List Char) (max_length : Nat)
    (hover : max_length < text.length)
    (hplen : pfx.length + 20 ≤ max_length)
    (hnolt : ∀ c ∈ text, c ≠ '<') (hpnolt : ∀ c ∈ pfx, c ≠ '<') :
    (safe_truncate_html text max_length pfx).length ≤ max_length
    ∧ find_open_tags (safe_truncate_html text max_length pfx) = [] := by
  have hA := sth_available_bounds max_length pfx.length hplen
  set A := sth_available max_length pfx.length with hAdef
  set tp := sth_truncate_point text.length max_length pfx.length with htpdef
  have htp : tp = text.length - A.toNat := by
    rw [htpdef]
    unfold sth_truncate_point
    rw [← hAdef]
    omega
  have htp_pos : 0 < tp := by omega
  have htp_le : tp ≤ text.length := by omega
  have hdropnolt : ∀ c ∈ text.drop tp, c ≠ '<' :=
    fun c hc => hnolt c (List.mem_of_mem_drop hc)
  have hlt : (text.drop tp).findIdx? (fun c => c = '<') = none := by
    rw [List.findIdx?_eq_none_iff]
    intro c hc
    simp [hdropnolt c hc]
  have hopenPre : find_open_tags (text.take tp) = [] :=
    find_open_tags_eq_nil_of_no_lt (fun c hc => hnolt c (List.mem_of_mem_take hc))
  have hopenDrop : find_open_tags (text.drop tp) = [] :=
    find_open_tags_eq_nil_of_no_lt hdropnolt
  have hres : safe_truncate_html text max_length pfx = pfx ++ text.drop tp := by
    unfold safe_truncate_html
    rw [if_neg (by omega)]
    simp only [← htpdef, hlt, htp_pos, if_pos, hopenPre, if_true]
    cases hgt : (text.drop tp).findIdx? (fun c => c = '>') <;>
      simp [balance_tags_of_no_open hopenDrop]
  constructor
  · rw [hres]
    have : (text.drop tp).length = text.length - tp := List.length_drop tp text
    simp only [List.length_append, this]
    omega
  · rw [hres]
    refine find_open_tags_eq_nil_of_no_lt ?_
    intro c hc
    rcases List.mem_append.mp hc with h | h
    · exact hpnolt c h
    · exact hdropnolt c h

/-- Claim C4, counterexample.  The claim bounds the display view by the
configured maximum size for every over-budget HTML-mode text.  With
`chunk_size = 30` and text `<b>` repeated ten times plus `x` (31 characters,
over budget), the discarded prefix leaves nine `b` tags open; re-opening
them and balancing appends far more than the 60-character tag buffer
reserved for that purpose, and the view is 77 characters long. -/
theorem get_display_text_can_exceed_chunk_size :
    30 < (MessageStreamer.current_text
      { chunk_size := 30, current_text := (List.replicate 10 "<b>".toList).flatten ++ ['x'] }).length
    ∧ (get_display_text
        { chunk_size := 30, current_text := (List.replicate 10 "<b>".toList).flatten ++ ['x'] }).length
      = 77 := by
  decide

/-- Claim C4, amended.  In HTML mode with no fallback, for every over-budget
text free of markup (no `<` anywhere, as in the plain streamed output the
renderer mostly carries) the display view keeps within the configured
maximum size and has no unbalanced tags; when the text does carry tags the
re-opened and closing tags come out of a fixed 60-character buffer and can
push the view past the maximum (see the counterexample). -/
theorem get_display_text_bounded_without_markup
    (st : MessageStreamer) (hmode : st.parse_mode = some "HTML")
    (hfb : st.fallback_to_plain = false)
    (hover : st.chunk_size < st.current_text.length)
    (hchunk : 26 ≤ st.chunk_size)
    (hnolt : ∀ c ∈ st.current_text, c ≠ '<') :
    (get_display_text st).length ≤ st.chunk_size
    ∧ find_open_tags (get_display_text st) = [] := by
  have hdisp : get_display_text st
      = safe_truncate_html st.current_text st.chunk_size "[...]\n".toList := by
    simp [get_display_text, hmode, hfb, Nat.not_le.mpr hover]
  rw [hdisp]
  exact safe_truncate_html_no_tags st.current_text "[...]\n".toList st.chunk_size
    hover (by simpa using hchunk) hnolt (by decide)

/-- Claim C4, witness for the amended theorem: 31 markup-free characters at
`chunk_size = 30` display within the budget and balanced. -/
theorem get_display_text_bounded_without_markup_witness :
    (get_display_text { chunk_size := 30, current_text := List.replicate 31 'x' }).length ≤ 30
    ∧ find_open_tags
        (get_display_text { chunk_size := 30, current_text := List.replicate 31 'x' }) = [] :=
  get_display_text_bounded_without_markup
    { chunk_size := 30, current_text := List.replicate 31 'x' }
    rfl rfl (by decide) (by decide) (by decide)

/-! ### Claim C2 -/

/-- Claim C2, evaluation at the failing input.  The claim (and the inline
comments of the source: `Remove every other region until we fit`, `retry
with fewer regions`) promise the halving of the interesting list repeats
until the budget is met or one anchor remains.  The source halves ONCE and
then breaks without rechecking the budget, so with eight zero-context
anchors and a budget of 4 lines the output still has 8 lines (four kept
lines and four skip indicators) although a second halving would have fit:
the hard `<= maxLines` contract fails with well over two anchors left. -/
theorem smart_truncate_exceeds_budget_after_single_halving :
    countLines
        (smart_truncate ((List.range 40).map (fun i => ("line " ++ Nat.repr i).toList))
          4 [0, 5, 10, 15, 20, 25, 30, 35] 0)
      = 8
    ∧ 4 < countLines
        (smart_truncate ((List.range 40).map (fun i => ("line " ++ Nat.repr i).toList))
          4 [0, 5, 10, 15, 20, 25, 30, 35] 0) := by
  decide

/-! ### Claim C7 -/

theorem flushInv_step (throttle : Nat) (s : FlushState) (e : StreamEvent)
    (hInv : flushInv s = true) (hOk : eventOk throttle s e = true) :
    flushInv (streamStep throttle s e) = true := by
  cases e with
  | append now o =>
    by_cases him : throttle ≤ now - s.lastEdit
    · have htasks2 : s.tasks = [] := by
        simp [eventOk, him] at hOk
        exact hOk
      cases o <;> simp [streamStep, do_flush, him, flushInv, htasks2]
    · by_cases hpf : s.pendingFlush
      · simpa [streamStep, him, hpf] using hInv
      · have htasks2 : s.tasks = [] := by
          simp [flushInv, hpf] at hInv
          exact hInv.2
        simp [streamStep, him, hpf, flushInv, htasks2]
  | fire o =>
    cases ht : s.tasks with
    | nil => simpa [streamStep, ht] using hInv
    | cons t rest =>
      have hrest : rest = [] := by
        have hlen : s.tasks.length ≤ 1 := by
          simp [flushInv] at hInv
          exact hInv.1
        rw [ht] at hlen
        simp at hlen
        exact hlen
      by_cases hpf : s.pendingFlush
      · cases o <;> simp [streamStep, ht, hpf, do_flush, flushInv, hrest]
      · simp [streamStep, ht, hpf, flushInv, hrest]

/-- Claim C7, counterexample.  The claim says at most one delayed-flush task
is ever pending.  Trace with a 1000 ms throttle, starting just after a push
at time 0: an append at 500 schedules a task (fires at 1500); an append at
1000 satisfies the elapsed check and flushes immediately, clearing the
pending-flush flag while the task is still in flight; an append at 1100 then
finds the flag clear and schedules a second task — two tasks pending. -/
theorem streamRun_two_timers_pending :
    ¬ ((streamRun 1000 {}
        [.append 500 .success, .append 1000 .success, .append 1100 .success]).tasks.length
      ≤ 1) := by
  decide

/-- Claim C7, amended.  Appending flushes immediately when the throttle
interval has elapsed since the last push and otherwise schedules a delayed
flush only when none is pending; the pending-flush flag keeps the number of
in-flight delayed-flush tasks at one PROVIDED no immediate (throttle-elapsed)
flush runs while a delayed task is still in flight — such a flush clears the
flag early and lets a later append schedule a second timer (counterexample
above). -/
theorem flushInv_run (throttle : Nat) (s : FlushState) (evs : List StreamEvent)
    (hInv : flushInv s = true) (hOk : runOk throttle s evs = true) :
    flushInv (streamRun throttle s evs) = true
    ∧ (streamRun throttle s evs).tasks.length ≤ 1 := by
  induction evs generalizing s with
  | nil =>
    refine ⟨hInv, ?_⟩
    simp [streamRun]
    simp [flushInv] at hInv
    exact hInv.1
  | cons e es ih =>
    simp only [runOk, Bool.and_eq_true] at hOk
    exact ih (streamStep throttle s e) (flushInv_step throttle s e hInv hOk.1) hOk.2

/-- Claim C7, witness: a trace whose appends all respect the side condition
keeps a single timer throughout. -/
theorem flushInv_run_witness :
    flushInv (streamRun 1000 {}
        [.append 500 .success, .fire .success, .append 2000 .success]) = true
    ∧ (streamRun 1000 {}
        [.append 500 .success, .fire .success, .append 2000 .success]).tasks.length ≤ 1 :=
  flushInv_run 1000 {}
    [.append 500 .success, .fire .success, .append 2000 .success]
    (by decide) (by decide)

/-! ### Claim C3 -/

theorem ampBackFrom_le (text : List Char) :
    ∀ k j, ampBackFrom text k = some j → j ≤ k := by
  intro k
  induction k with
  | zero =>
    intro j h
    cases hg : text.get? 0 <;> simp only [ampBackFrom, hg] at h
    · exact Option.noConfusion h
    · split at h
      · simp at h; omega
      · exact Option.noConfusion h
  | succ k ih =>
    intro j h
    cases hg : text.get? (k + 1) <;> simp only [ampBackFrom, hg] at h
    · exact Option.noConfusion h
    · split at h
      · simp at h; omega
      · split at h
        · exact Nat.le_trans (ih j h) (by omega)
        · exact Option.noConfusion h

theorem ltBackFrom_le (text : List Char) :
    ∀ k j, ltBackFrom text k = some j → j ≤ k := by
  intro k
  induction k with
  | zero =>
    intro j h
    cases hg : text.get? 0 <;> simp only [ltBackFrom, hg] at h
    · exact Option.noConfusion h
    · split at h
      · simp at h; omega
      · exact Option.noConfusion h
  | succ k ih =>
    intro j h
    cases hg : text.get? (k + 1) <;> simp only [ltBackFrom, hg] at h
    · exact Option.noConfusion h
    · split at h
      · simp at h; omega
      · split at h
        · exact Option.noConfusion h
        · exact Nat.le_trans (ih j h) (by omega)

theorem insideEntity_lt {text : List Char} {i j : Nat}
    (h : insideEntity text i = some j) : j < i := by
  match i with
  | 0 => simp [insideEntity] at h
  | m + 1 =>
    simp only [insideEntity] at h
    by_cases hs : semiClose (text.drop (m + 1)) = true
    · rw [if_pos hs] at h
      exact Nat.lt_succ_of_le (ampBackFrom_le text m j h)
    · rw [if_neg hs] at h
      simp at h

theorem insideTag_lt {text : List Char} {i j : Nat}
    (h : insideTag text i = some j) : j < i := by
  match i with
  | 0 => simp [insideTag] at h
  | m + 1 =>
    simp only [insideTag] at h
    by_cases hs : gtClose (text.drop (m + 1)) = true
    · rw [if_pos hs] at h
      exact Nat.lt_succ_of_le (ltBackFrom_le text m j h)
    · rw [if_neg hs] at h
      simp at h

theorem adjustBackFuel_spec (text : List Char) :
    ∀ fuel i, i ≤ fuel →
      adjustBackFuel text fuel i ≤ i
      ∧ insideEntity text (adjustBackFuel text fuel i) = none
      ∧ insideTag text (adjustBackFuel text fuel i) = none := by
  intro fuel
  induction fuel with
  | zero =>
    intro i hi
    have hz : i = 0 := Nat.le_zero.mp hi
    subst hz
    exact ⟨Nat.le_refl 0, rfl, rfl⟩
  | succ f ih =>
    intro i hi
    unfold adjustBackFuel
    cases he : insideEntity text i with
    | some j =>
      have hj : j < i := insideEntity_lt he
      have h2 := ih j (by omega)
      exact ⟨Nat.le_trans h2.1 (Nat.le_of_lt hj), h2.2.1, h2.2.2⟩
    | none =>
      cases ht : insideTag text i with
      | some j =>
        have hj : j < i := insideTag_lt ht
        have h2 := ih j (by omega)
        exact ⟨Nat.le_trans h2.1 (Nat.le_of_lt hj), h2.2.1, h2.2.2⟩
      | none => exact ⟨Nat.le_refl i, he, ht⟩

theorem adjustBack_spec (text : List Char) (i : Nat) :
    adjustBack text i ≤ i
    ∧ insideEntity text (adjustBack text i) = none
    ∧ insideTag text (adjustBack text i) = none :=
  adjustBackFuel_spec text i i (Nat.le_refl i)

theorem lastIdxBefore_lt (text : List Char) (c : Char) :
    ∀ t p, lastIdxBefore text c t = some p → p < t := by
  intro t
  induction t with
  | zero =>
    intro p h
    exact Option.noConfusion h
  | succ t ih =>
    intro p h
    cases hg : text.get? t <;> simp only [lastIdxBefore, hg] at h
    · exact Nat.lt_trans (ih p h) (by omega)
    · split at h
      · simp at h; omega
      · exact Nat.lt_trans (ih p h) (by omega)

/-- Claim C3.  For every text and every target position, the safe truncate
point never falls strictly inside a `<...>` tag span or a `&...;` entity
span, and it never exceeds the target (when the cut would split a span, it
is moved back to just before the offending `&` or `<`; otherwise the cut
snaps just after the nearest preceding newline, then space). -/
theorem find_safe_truncate_point_safe (text : List Char) (target : Nat) :
    find_safe_truncate_point text target ≤ target
    ∧ insideEntity text (find_safe_truncate_point text target) = none
    ∧ insideTag text (find_safe_truncate_point text target) = none := by
  unfold find_safe_truncate_point
  have htt : min target text.length ≤ target := Nat.min_le_left _ _
  have hA := adjustBack_spec text (min target text.length)
  by_cases hat : adjustBack text (min target text.length) < min target text.length
  · rw [if_pos hat]
    exact ⟨Nat.le_trans (Nat.le_of_lt hat) htt, hA.2.1, hA.2.2⟩
  · rw [if_neg hat]
    cases hn : lastIdxBefore text '\n' (min target text.length) with
    | some p =>
      dsimp only
      have hp : p < min target text.length := lastIdxBefore_lt text '\n' _ p hn
      have h2 := adjustBack_spec text (p + 1)
      have h21 := h2.1
      exact ⟨by omega, h2.2.1, h2.2.2⟩
    | none =>
      dsimp only
      cases hs : lastIdxBefore text ' ' (min target text.length) with
      | some q =>
        dsimp only
        have hq : q < min target text.length := lastIdxBefore_lt text ' ' _ q hs
        have h2 := adjustBack_spec text (q + 1)
        have h21 := h2.1
        exact ⟨by omega, h2.2.1, h2.2.2⟩
      | none =>
        dsimp only
        have h1 := hA.1
        have heq : adjustBack text (min target text.length) = min target text.length := by
          omega
        exact ⟨htt, heq ▸ hA.2.1, heq ▸ hA.2.2⟩

example : find_safe_truncate_point "Hello &amp; world".toList 8 = 6 := by decide
example : find_safe_truncate_point "Hello <b>world</b>".toList 7 = 6 := by decide
example : find_safe_truncate_point "Line one\nLine two".toList 12 = 9 := by decide
example : find_safe_truncate_point "Hello beautiful world".toList 10 = 6 := by decide
example : find_safe_truncate_point "A &lt; B &gt; C &amp; D".toList 5 = 2 := by decide
example : find_safe_truncate_point "Hello &amp; world test".toList 18 = 18 := by decide

end Teleclaude
